import Mathlib

/-!
Verification of the content-graph layer of the demisto-sdk repository:
the content-type registry (commands/content_graph/constants.py), the
script and playbook parsers (commands/content_graph/parsers/), and the
neo4j dependency queries
(commands/content_graph/interface/neo4j/queries/dependencies.py).

Python data is embedded shallowly: strings are Lean strings, Python
lists are Lean lists, Python sets are deduplicated lists, graph-database
state is an explicit record of node and edge lists, and the Cypher
queries are embedded as pure functions from graph state to graph state
(or to the list of created relationships).
-/

namespace DemistoSdk

/-! ## Content type registry (content_graph/constants.py) -/

/-- The ContentTypes enum of content_graph/constants.py, one constructor
per member, in source order. -/
inductive ContentTypes where
  | BASE_CONTENT
  | PACK
  | COMMAND_OR_SCRIPT
  | COMMAND
  | SCRIPT
  | PLAYBOOK
  | INTEGRATION
  | TEST_PLAYBOOK
  | INCIDENT_FIELD
  | INCIDENT_TYPE
  | INDICATOR_TYPE
  | INDICATOR_FIELD
  | CLASSIFIER
  | MAPPER
  | LAYOUT
  | WIDGET
  | DASHBOARD
  | REPORT
  | CONNECTION
  | GENERIC_DEFINITION
  | GENERIC_FIELD
  | GENERIC_MODULE
  | GENERIC_TYPE
  | LIST
  | PREPROCESS_RULE
  | JOB
  | PARSING_RULE
  | MODELING_RULE
  | CORRELATION_RULE
  | XSIAM_DASHBOARD
  | XSIAM_REPORT
  | TRIGGER
  | WIZARD
deriving DecidableEq, Repr, Fintype

/-- The string value of each enum member, exactly as in constants.py. -/
def ContentTypes.value : ContentTypes → String
  | .BASE_CONTENT => "BaseContent"
  | .PACK => "Pack"
  | .COMMAND_OR_SCRIPT => "CommandOrScript"
  | .COMMAND => "Command"
  | .SCRIPT => "Script"
  | .PLAYBOOK => "Playbook"
  | .INTEGRATION => "Integration"
  | .TEST_PLAYBOOK => "TestPlaybook"
  | .INCIDENT_FIELD => "IncidentField"
  | .INCIDENT_TYPE => "IncidentType"
  | .INDICATOR_TYPE => "IndicatorType"
  | .INDICATOR_FIELD => "IndicatorField"
  | .CLASSIFIER => "Classifier"
  | .MAPPER => "Mapper"
  | .LAYOUT => "Layout"
  | .WIDGET => "Widget"
  | .DASHBOARD => "Dashboard"
  | .REPORT => "Report"
  | .CONNECTION => "Connection"
  | .GENERIC_DEFINITION => "GenericDefinition"
  | .GENERIC_FIELD => "GenericField"
  | .GENERIC_MODULE => "GenericModule"
  | .GENERIC_TYPE => "GenericType"
  | .LIST => "List"
  | .PREPROCESS_RULE => "PreProcessRule"
  | .JOB => "Job"
  | .PARSING_RULE => "ParsingRule"
  | .MODELING_RULE => "ModelingRule"
  | .CORRELATION_RULE => "CorrelationRule"
  | .XSIAM_DASHBOARD => "XSIAMDashboard"
  | .XSIAM_REPORT => "XSIAMReport"
  | .TRIGGER => "Trigger"
  | .WIZARD => "Wizard"

/-- All enum members in source order (iteration order of the Python enum). -/
def ContentTypes.all : List ContentTypes :=
  [.BASE_CONTENT, .PACK, .COMMAND_OR_SCRIPT, .COMMAND, .SCRIPT, .PLAYBOOK,
   .INTEGRATION, .TEST_PLAYBOOK, .INCIDENT_FIELD, .INCIDENT_TYPE,
   .INDICATOR_TYPE, .INDICATOR_FIELD, .CLASSIFIER, .MAPPER, .LAYOUT,
   .WIDGET, .DASHBOARD, .REPORT, .CONNECTION, .GENERIC_DEFINITION,
   .GENERIC_FIELD, .GENERIC_MODULE, .GENERIC_TYPE, .LIST, .PREPROCESS_RULE,
   .JOB, .PARSING_RULE, .MODELING_RULE, .CORRELATION_RULE, .XSIAM_DASHBOARD,
   .XSIAM_REPORT, .TRIGGER, .WIZARD]

/-- Appends an element to a list unless already present; used to embed
Python set insertion so that insertion order is kept deterministic. -/
def addIfAbsent (l : List String) (s : String) : List String :=
  if s ∈ l then l else l ++ [s]

/-- The labels property of ContentTypes: starts from the two-element set
with BaseContent and the member's own value, adds Playbook when the value
equals that of TEST_PLAYBOOK, and adds CommandOrScript when the member is
SCRIPT or COMMAND. The Python set is embedded as an insertion-ordered
duplicate-free list. -/
def ContentTypes.labels (t : ContentTypes) : List String :=
  let l0 := addIfAbsent [ContentTypes.BASE_CONTENT.value] t.value
  let l1 := if t.value = ContentTypes.TEST_PLAYBOOK.value
    then addIfAbsent l0 ContentTypes.PLAYBOOK.value else l0
  if t = ContentTypes.SCRIPT ∨ t = ContentTypes.COMMAND
    then addIfAbsent l1 ContentTypes.COMMAND_OR_SCRIPT.value else l1

/-- The as_folder property: the value with an "s" appended. -/
def ContentTypes.as_folder (t : ContentTypes) : String :=
  t.value ++ "s"

/-- Python folder[:-1]: the string with its final character removed. -/
def pyDropLastChar (s : String) : String :=
  (s.toList.dropLast).asString

/-- The spec's error for a folder not mapping to a known content type;
the Python implementation surfaces it as the enum lookup failure raised
by ContentTypes(folder[:-1]). -/
structure UnknownContentTypeError where
  folder : String
deriving DecidableEq, Repr

/-- The by_folder classmethod: drops the final character of the folder
name and looks the result up among the enum values; an unmatched folder
fails. -/
def ContentTypes.by_folder (folder : String) :
    Except UnknownContentTypeError ContentTypes :=
  match ContentTypes.all.find? (fun t => t.value == pyDropLastChar folder) with
  | some t => .ok t
  | none => .error ⟨folder⟩

/-! ## Python string primitives used by the parsers -/

/-- Python str.split(sep) restricted to a one-character separator, on the
character list of the string: always returns at least one (possibly
empty) field. -/
def pySplit (sep : Char) : List Char → List (List Char)
  | [] => [[]]
  | c :: cs =>
    if c = sep then [] :: pySplit sep cs
    else
      match pySplit sep cs with
      | [] => [[c]]
      | h :: t => (c :: h) :: t

/-- Python s.split(sep)[-1]: the field after the last separator. -/
def pySplitLastField (sep : Char) (s : String) : String :=
  ((pySplit sep s.toList).getLastD []).asString

/-- Python substring containment test (needle in haystack) on character
lists. -/
def hasSubstrL : List Char → List Char → Bool
  | nd, [] => nd.isEmpty
  | nd, c :: cs => nd.isPrefixOf (c :: cs) || hasSubstrL nd cs

/-- Python substring containment test (needle in haystack) on strings. -/
def hasSubstr (needle hay : String) : Bool :=
  hasSubstrL needle.toList hay.toList

/-! ## Script parser (content_graph/parsers/script.py)

The parser reads the dependson.must list of the yml data and regex-scans
the script code; both produce names handed to add_dependency. The
add_dependency method lives in parsers/content_item.py which is not part
of the sources, so it is modelled from the spec below. -/

/-- A dependency declaration: the intermediate record a parser produces
for each dependency (target identifier, target content type, mandatory
flag). -/
structure DependencyDecl where
  target : String
  target_type : ContentTypes
  mandatorily : Bool
deriving DecidableEq, Repr

namespace ScriptParser

/-- The get_depends_on method: the dependson.must entries each split on
the pipe character keeping the last field, collected into a Python set
(embedded as a duplicate-free list, keeping last occurrences as
List.dedup does). -/
def get_depends_on (dependson_must : List String) : List String :=
  (dependson_must.map (pySplitLastField '|')).dedup

/-- Membership in the character class of EXECUTE_CMD_PATTERN's capturing
group, which is written as the ranges a-z and A-Z plus the hyphen and
the underscore; digits are not included. -/
def inCmdClass (c : Char) : Bool :=
  ('a' ≤ c && c ≤ 'z') || ('A' ≤ c && c ≤ 'Z') || c = '-' || c = '_'

/-- Case-insensitive match of a literal pattern (given in lowercase)
against the start of the input; returns the remainder on success. -/
def matchLitCI : List Char → List Char → Option (List Char)
  | [], s => some s
  | _ :: _, [] => none
  | p :: ps, c :: cs => if c.toLower = p then matchLitCI ps cs else none

/-- Quote characters accepted by the pattern's quote class. -/
def isQuote (c : Char) : Bool :=
  c = '\'' || c = '"'

/-- One attempted match of EXECUTE_CMD_PATTERN at the start of the
input: the literal execute, an optional underscore, the literal command,
an opening parenthesis, a quote, a nonempty greedy run over the capture
class that must be followed directly by a quote (the class contains no
quote character, so no backtracking can save a failed run), and a final
greedy dot-star that consumes the rest of the line. Returns the captured
run and the remainder after the whole match. -/
def matchExecAt (s : List Char) : Option (List Char × List Char) :=
  match matchLitCI ['e', 'x', 'e', 'c', 'u', 't', 'e'] s with
  | none => none
  | some r1 =>
    let r2 :=
      match r1 with
      | '_' :: rest => matchLitCI ['c', 'o', 'm', 'm', 'a', 'n', 'd'] rest
      | _ => matchLitCI ['c', 'o', 'm', 'm', 'a', 'n', 'd'] r1
    match r2 with
    | none => none
    | some r3 =>
      match r3 with
      | '(' :: r4 =>
        match r4 with
        | q :: r5 =>
          if isQuote q then
            let run := r5.takeWhile inCmdClass
            let after := r5.dropWhile inCmdClass
            if run.isEmpty then none
            else
              match after with
              | q2 :: r6 =>
                if isQuote q2 then
                  some (run, r6.dropWhile (fun c => c ≠ '\n'))
                else none
              | [] => none
          else none
        | [] => none
      | _ => none

/-- re.findall over EXECUTE_CMD_PATTERN: scan left to right, at each
position try a match; on success emit the capture and resume after the
match, otherwise advance one character. The fuel argument (instantiated
with the input length) bounds the recursion; every step consumes at
least one character, so the bound is never the reason a scan stops. -/
def findallExec : Nat → List Char → List (List Char)
  | 0, _ => []
  | _ + 1, [] => []
  | fuel + 1, c :: cs =>
    match matchExecAt (c :: cs) with
    | some (cap, rest) => cap :: findallExec fuel rest
    | none => findallExec fuel cs

/-- The get_command_executions method: the set of captures of
EXECUTE_CMD_PATTERN over the script code. -/
def get_command_executions (code : String) : List String :=
  ((findallExec code.toList.length code.toList).map List.asString).dedup

/-- Modelled from the spec: add_dependency lives in
parsers/content_item.py, which is not among the sources. Per the spec, a
script dependency declaration is ambiguous (USES_COMMAND_OR_SCRIPT,
since the target may resolve to a Command or a Script) and mandatory by
default. -/
def add_dependency (cmd : String) : DependencyDecl :=
  ⟨cmd, .COMMAND_OR_SCRIPT, true⟩

/-- The connect_to_dependencies method of ScriptParser: one declaration
per name from get_depends_on, then one per name from
get_command_executions. -/
def connect_to_dependencies (dependson_must : List String) (code : String) :
    List DependencyDecl :=
  (get_depends_on dependson_must).map add_dependency
    ++ (get_command_executions code).map add_dependency

end ScriptParser

/-! ## Playbook parser (content_graph/parsers/playbook.py)

A playbook task is embedded as a record of exactly the fields the
handlers read. Python truthiness of the walrus assignments is embedded
as an Option being some with a nonempty string. The helper
get_fields_by_script_argument and the constant BUILT_IN_FIELDS live in
common/update_id_set.py, which is not among the sources; the former is
modelled from the spec as the task's already-extracted field list, the
latter is kept as an explicit argument. The task graph built by
build_tasks_graph (same missing module) is modelled from the spec as a
partial map from task id to the mandatory flag of its graph node, which
is all that is_mandatory_dependency reads from it. -/

/-- A filter/transformer complex-value expression: the operators of its
filters (each filter is a chain whose first entry's operator is used)
and of its transformers. Operators are embedded as present strings; the
Python code reads them with .get('operator'). -/
structure ComplexValue where
  filters : List (List String)
  transformers : List String
deriving DecidableEq, Repr

/-- One condition inside a condition task, with optional complex values
on its left and right sides (none embeds a falsy/absent complex). -/
structure PlaybookCondition where
  left : Option ComplexValue
  right : Option ComplexValue
deriving DecidableEq, Repr

/-- The fields of a playbook task consumed by the dependency handlers. -/
structure PlaybookTask where
  playbookName : Option String
  scriptName : Option String
  script : Option String
  listName : Option String
  scriptArgumentFields : List String
  fieldMapping : List String
  type : String
  conditions : List (List (List PlaybookCondition))
  scriptArgumentsComplex : List (Option ComplexValue)
deriving DecidableEq, Repr

namespace PlaybookParser

/-- The LIST_COMMANDS constant of playbook.py. -/
def LIST_COMMANDS : List String :=
  ["Builtin|||setList", "Builtin|||getList"]

/-- The is_mandatory_dependency method: the mandatory flag of the task's
node in the task graph, or False when the task id is not a node of the
graph (the KeyError branch: the task is not connected to a branch). -/
def is_mandatory_dependency (graph : List (String × Bool)) (task_id : String) :
    Bool :=
  match graph.lookup task_id with
  | some b => b
  | none => false

/-- The handle_playbook_task method: a dependency on the sub-playbook
when the task names one. -/
def handle_playbook_task (t : PlaybookTask) (is_mandatory : Bool) :
    List DependencyDecl :=
  match t.playbookName with
  | some p => if p = "" then [] else [⟨p, .PLAYBOOK, is_mandatory⟩]
  | none => []

/-- The handle_script_task method: a dependency on the script when the
task names one. -/
def handle_script_task (t : PlaybookTask) (is_mandatory : Bool) :
    List DependencyDecl :=
  match t.scriptName with
  | some s => if s = "" then [] else [⟨s, .SCRIPT, is_mandatory⟩]
  | none => []

/-- The body of handle_command_task for a present command string, branch
for branch: setIncident and setIndicator substrings route to
incident/indicator fields extracted from the script arguments, the two
LIST_COMMANDS route to the listName argument, commands containing
Builtin are otherwise dropped, and the remaining commands yield a bare
Command dependency when they contain no pipe, else the first pipe-field
as an Integration dependency when nonempty and otherwise the last
pipe-field as a Command dependency. -/
def handle_command_core (t : PlaybookTask) (is_mandatory : Bool)
    (command : String) : List DependencyDecl :=
    if command = "" then []
    else if hasSubstr "setIncident" command then
      t.scriptArgumentFields.map (fun f => ⟨f, .INCIDENT_FIELD, is_mandatory⟩)
    else if hasSubstr "setIndicator" command then
      t.scriptArgumentFields.map (fun f => ⟨f, .INDICATOR_FIELD, is_mandatory⟩)
    else if command ∈ LIST_COMMANDS then
      match t.listName with
      | some l => if l = "" then [] else [⟨l, .LIST, is_mandatory⟩]
      | none => []
    else if hasSubstr "Builtin" command then []
    else if '|' ∈ command.toList then
      if ((pySplit '|' command.toList).headD []).asString = "" then
        [⟨((pySplit '|' command.toList).getLastD []).asString, .COMMAND,
          is_mandatory⟩]
      else
        [⟨((pySplit '|' command.toList).headD []).asString, .INTEGRATION,
          is_mandatory⟩]
    else [⟨command, .COMMAND, is_mandatory⟩]

/-- The handle_command_task method: dispatch on the task's command
string, branch for branch as in the source (see handle_command_core). -/
def handle_command_task (t : PlaybookTask) (is_mandatory : Bool) :
    List DependencyDecl :=
  match t.script with
  | none => []
  | some command => handle_command_core t is_mandatory command

/-- The add_complex_input_filters_and_transformers method: for each
nonempty filter chain a Script dependency on its first operator, and a
Script dependency on each transformer's operator. The call passes no
mandatory flag, so the add_dependency default applies; modelled from the
spec, which treats declarations as mandatory by default. -/
def add_complex_input_filters_and_transformers (cv : ComplexValue) :
    List DependencyDecl :=
  (cv.filters.flatMap (fun f =>
    match f with
    | [] => []
    | op :: _ => [⟨op, .SCRIPT, true⟩]))
    ++ cv.transformers.map (fun op => ⟨op, .SCRIPT, true⟩)

/-- The handle_task_filter_and_transformer_scripts method: for condition
tasks, the complex values on both sides of every condition; otherwise
the complex values of the task's script arguments. -/
def handle_task_filter_and_transformer_scripts (t : PlaybookTask) :
    List DependencyDecl :=
  if t.type = "condition" then
    t.conditions.flatMap (fun entry =>
      entry.flatMap (fun inner =>
        inner.flatMap (fun cond =>
          (match cond.left with
           | some cv => add_complex_input_filters_and_transformers cv
           | none => [])
            ++ (match cond.right with
                | some cv => add_complex_input_filters_and_transformers cv
                | none => []))))
  else
    t.scriptArgumentsComplex.flatMap (fun oc =>
      match oc with
      | some cv => add_complex_input_filters_and_transformers cv
      | none => [])

/-- The handle_field_mapping method: a dependency on each mapped
incident field not among the built-in field names. -/
def handle_field_mapping (builtInFields : List String) (t : PlaybookTask)
    (is_mandatory : Bool) : List DependencyDecl :=
  t.fieldMapping.filterMap (fun f =>
    if f ∈ builtInFields then none
    else some ⟨f, .INCIDENT_FIELD, is_mandatory⟩)

/-- The declarations the four mandatory-flag-passing handlers extract
from one task. -/
def flag_passing_handlers (builtInFields : List String) (t : PlaybookTask)
    (is_mandatory : Bool) : List DependencyDecl :=
  handle_playbook_task t is_mandatory
    ++ handle_script_task t is_mandatory
    ++ handle_command_task t is_mandatory
    ++ handle_field_mapping builtInFields t is_mandatory

/-- The connect_to_dependencies method of PlaybookParser: per task, the
filter/transformer declarations followed by the four handlers called
with the task's is_mandatory_dependency flag, in source order. -/
def connect_to_dependencies (graph : List (String × Bool))
    (builtInFields : List String) (tasks : List (String × PlaybookTask)) :
    List DependencyDecl :=
  tasks.flatMap (fun task =>
    let is_mandatory := is_mandatory_dependency graph task.1
    handle_task_filter_and_transformer_scripts task.2
      ++ flag_passing_handlers builtInFields task.2 is_mandatory)

end PlaybookParser

/-! ## Phase 1: marketplace repair
(interface/neo4j/queries/dependencies.py, update_marketplaces_property)

The graph state a repair query runs on is a list of BaseContent nodes
(node_id and marketplaces properties, which is all the query reads) and
a list of USES relationships between node positions carrying the
mandatorily property. The Cypher variable-length match
USES*(mandatorily: true) is embedded as a saturating closure over the
mandatory successor relation, iterated as many times as there are
nodes, which below is proven equivalent to the existence of a mandatory
path of any positive length. -/

/-- A BaseContent node as read by the repair query. -/
structure MpNode where
  node_id : String
  marketplaces : List String
deriving DecidableEq, Repr

/-- A USES relationship between node positions. -/
structure MpUses where
  src : Nat
  dst : Nat
  mandatorily : Bool
deriving DecidableEq, Repr

/-- Graph state for the repair query. -/
structure MpGraph where
  nodes : List MpNode
  uses : List MpUses
deriving DecidableEq, Repr

/-- Well-formedness: every relationship endpoint is a node position. -/
def MpGraph.wf (g : MpGraph) : Prop :=
  ∀ e ∈ g.uses, e.src < g.nodes.length ∧ e.dst < g.nodes.length

/-- Targets of the mandatory USES relationships out of a node. -/
def mandSucc (uses : List MpUses) (a : Nat) : List Nat :=
  (uses.filter (fun e => e.src == a && e.mandatorily)).map (fun e => e.dst)

/-- One saturation step: the set together with all mandatory successors
of its members, deduplicated. -/
def stepClosure (uses : List MpUses) (s : List Nat) : List Nat :=
  (s ++ s.flatMap (mandSucc uses)).dedup

/-- Iterated saturation. -/
def iterClosure (uses : List MpUses) : Nat → List Nat → List Nat
  | 0, s => s
  | k + 1, s => stepClosure uses (iterClosure uses k s)

/-- The nodes reachable from a by a mandatory USES path of length at
least one: the saturation of a's direct mandatory successors, iterated
n times where n bounds the number of nodes. -/
def reachableFrom (uses : List MpUses) (n : Nat) (a : Nat) : List Nat :=
  iterClosure uses n ((mandSucc uses a).dedup)

/-- The OPTIONAL MATCH of the repair query: is there any node sharing
the dependency's node_id that carries the marketplace. -/
def hasAlternative (nodes : List MpNode) (marketplace : String)
    (nid : String) : Bool :=
  nodes.any (fun alt => alt.node_id == nid && alt.marketplaces.contains marketplace)

/-- The dependency-side filter of the repair query for the node at
position j: it exists, is not tagged with the marketplace, and has no
tagged alternative. -/
def badDependency (g : MpGraph) (marketplace : String) (j : Nat) : Bool :=
  match g.nodes[j]? with
  | some d =>
    !(d.marketplaces.contains marketplace)
      && !(hasAlternative g.nodes marketplace d.node_id)
  | none => false

/-- The matched-row condition of the repair query for the content item
at position i: tagged with the marketplace and having some reachable
dependency that is not tagged with it and admits no tagged alternative. -/
def shouldRemove (g : MpGraph) (marketplace : String) (i : Nat)
    (ci : MpNode) : Bool :=
  ci.marketplaces.contains marketplace &&
    (reachableFrom g.uses g.nodes.length i).any (badDependency g marketplace)

/-- The SET clause's REDUCE: the marketplace list with the dropped
marketplace filtered out, order preserved. -/
def removeMarketplace (marketplace : String) (c : MpNode) : MpNode :=
  ⟨c.node_id, c.marketplaces.filter (fun mp => mp ≠ marketplace)⟩

/-- Applies the SET clause to every matched content item, walking the
node list with its position. -/
def updateNodes (g : MpGraph) (marketplace : String) :
    Nat → List MpNode → List MpNode
  | _, [] => []
  | i, c :: cs =>
    (if shouldRemove g marketplace i c then removeMarketplace marketplace c
     else c) :: updateNodes g marketplace (i + 1) cs

/-- The update_marketplaces_property query for one marketplace: match
rows against the incoming state, then drop the marketplace from every
matched content item. -/
def update_marketplaces_property (g : MpGraph) (marketplace : String) :
    MpGraph :=
  ⟨updateNodes g marketplace 0 g.nodes, g.uses⟩

/-- One mandatory USES relationship from a to b (the claim-side step
relation). -/
def MandStep (uses : List MpUses) (a b : Nat) : Prop :=
  ∃ e ∈ uses, e.src = a ∧ e.dst = b ∧ e.mandatorily = true

/-- A mandatory USES path of any positive length, as in the spec's
description of the variable-length match. -/
def MandReach (uses : List MpUses) : Nat → Nat → Prop :=
  Relation.TransGen (MandStep uses)

/-- The spec's removal condition for a content item, stated with the
path existence property: currently tagged with the marketplace, with a
mandatory USES path to a dependency not tagged with it such that no
node sharing the dependency's node_id is tagged with it. -/
def SpecRemovalCondition (g : MpGraph) (marketplace : String) (i : Nat)
    (ci : MpNode) : Prop :=
  marketplace ∈ ci.marketplaces ∧
    ∃ j d, MandReach g.uses i j ∧ g.nodes[j]? = some d ∧
      marketplace ∉ d.marketplaces ∧
      ∀ alt ∈ g.nodes, alt.node_id = d.node_id → marketplace ∉ alt.marketplaces

/-! ## Phase 2: pack collapse
(interface/neo4j/queries/dependencies.py, create_depends_on_relationships)

The collapse query reads pack nodes' id and marketplaces properties and
content items' node_id property; all nodes carry the same record here,
as all carry the BaseContent label in the store. The reputation-command
node id list REPUTATION_COMMANDS_NODE_IDS is derived from
REPUTATION_COMMAND_NAMES of common/constants.py, which is not among the
sources, so the ignored content item list is kept as an explicit
argument throughout. -/

/-- A node as read by the collapse query. -/
structure PackNode where
  id : String
  node_id : String
  marketplaces : List String
deriving DecidableEq, Repr

/-- Graph state for the collapse query: nodes, USES relationships and
IN_PACK relationships (content item position, pack position). -/
structure DepGraph where
  nodes : List PackNode
  uses : List MpUses
  in_pack : List (Nat × Nat)
deriving DecidableEq, Repr

/-- The IGNORED_PACKS_IN_DEPENDENCY_CALC constant. -/
def IGNORED_PACKS_IN_DEPENDENCY_CALC : List String :=
  ["NonSupported", "Base", "ApiModules"]

/-- The ANY(marketplace IN pack_a.marketplaces WHERE marketplace IN
pack_b.marketplaces) predicate. -/
def sharesMarketplace (pa pb : PackNode) : Bool :=
  pa.marketplaces.any (fun m => pb.marketplaces.contains m)

/-- One matched row of the collapse query: the two pack positions and
the mandatorily property of the matched USES relationship. -/
structure DependsOnRow where
  pack_a : Nat
  pack_b : Nat
  mandatorily : Bool
deriving DecidableEq, Repr

/-- The WHERE clause of the collapse query on a candidate row. -/
def collapseCond (ignoredItems : List String) (pa pb b : PackNode) : Bool :=
  sharesMarketplace pa pb && pa.id != pb.id
    && !(IGNORED_PACKS_IN_DEPENDENCY_CALC.contains pa.id)
    && !(IGNORED_PACKS_IN_DEPENDENCY_CALC.contains pb.id)
    && !(ignoredItems.contains b.node_id)

/-- One candidate row of the collapse query: a USES relationship r
together with IN_PACK relationships of its endpoints yields a row when
the IN_PACK sources match r's endpoints, all four matched nodes exist,
and the WHERE clause passes. -/
def rowCandidate (g : DepGraph) (ignoredItems : List String) (r : MpUses)
    (ipa ipb : Nat × Nat) : List DependsOnRow :=
  if ipa.1 = r.src ∧ ipb.1 = r.dst then
    match g.nodes[ipa.2]?, g.nodes[ipb.2]?, g.nodes[r.src]?,
        g.nodes[r.dst]? with
    | some pa, some pb, some _, some b =>
      if collapseCond ignoredItems pa pb b then
        [⟨ipa.2, ipb.2, r.mandatorily⟩]
      else []
    | _, _, _, _ => []
  else []

/-- All matched rows of the collapse query: for every USES relationship,
every IN_PACK relationship of its source item to a pack and every
IN_PACK relationship of its target item to a pack, the candidate rows. -/
def create_depends_on_rows (g : DepGraph) (ignoredItems : List String) :
    List DependsOnRow :=
  g.uses.flatMap (fun r =>
    g.in_pack.flatMap (fun ipa =>
      g.in_pack.flatMap (fun ipb =>
        rowCandidate g ignoredItems r ipa ipb)))

/-- A DEPENDS_ON relationship with its marketplaces and mandatorily
properties. -/
structure DependsOnEdge where
  src : Nat
  dst : Nat
  marketplaces : List String
  mandatorily : Bool
deriving DecidableEq, Repr

/-- The common marketplaces of the two packs of a row, in the REDUCE
clause's order (pack_a's list filtered by membership in pack_b's). -/
def commonMarketplaces (g : DepGraph) (row : DependsOnRow) : List String :=
  match g.nodes[row.pack_a]?, g.nodes[row.pack_b]? with
  | some pa, some pb =>
    pa.marketplaces.filter (fun m => pb.marketplaces.contains m)
  | _, _ => []

/-- The MERGE plus SET of one row: update the existing DEPENDS_ON
relationship of the pack pair if present (last write wins on both
properties), else append a new one. -/
def mergeDependsOn (g : DepGraph) (acc : List DependsOnEdge)
    (row : DependsOnRow) : List DependsOnEdge :=
  if acc.any (fun e => e.src == row.pack_a && e.dst == row.pack_b) then
    acc.map (fun e =>
      if e.src = row.pack_a ∧ e.dst = row.pack_b then
        ⟨e.src, e.dst, commonMarketplaces g row, row.mandatorily⟩
      else e)
  else acc ++ [⟨row.pack_a, row.pack_b, commonMarketplaces g row, row.mandatorily⟩]

/-- The create_depends_on_relationships query: all matched rows folded
through MERGE/SET into the list of DEPENDS_ON relationships. -/
def create_depends_on_relationships (g : DepGraph)
    (ignoredItems : List String) : List DependsOnEdge :=
  (create_depends_on_rows g ignoredItems).foldl (mergeDependsOn g) []

/-- The spec-side condition for the pack pair (i, j): some item-level
USES edge runs from an item of pack i to an item of pack j, the packs
share a marketplace, their ids differ, neither id is ignored, and the
target item is not an ignored content item. Stated without any
restriction on the edge's mandatorily property; the amended claim C1
asserts this is exactly when the query creates the pair's DEPENDS_ON
relationship. -/
def SpecCollapseProduces (g : DepGraph) (ignoredItems : List String)
    (i j : Nat) : Prop :=
  ∃ r ∈ g.uses, ∃ pa pb a b,
    (r.src, i) ∈ g.in_pack ∧ (r.dst, j) ∈ g.in_pack ∧
    g.nodes[i]? = some pa ∧ g.nodes[j]? = some pb ∧
    g.nodes[r.src]? = some a ∧ g.nodes[r.dst]? = some b ∧
    collapseCond ignoredItems pa pb b = true

/-! ## End-to-end scenario material (claim C5)

The graph builder and the query that resolves USES_COMMAND_OR_SCRIPT
relationships against concrete Command/Script nodes are not among the
sources; they are modelled from the spec below, and only the parsing
(script.py) and collapse (dependencies.py) stages come from the code. -/

/-- Modelled from the spec: resolution of an ambiguous
USES_COMMAND_OR_SCRIPT declaration. Only when the relationships are
added to the database can the actual content type be detected, and the
declaration becomes a USES relationship against the Command or Script
node whose node id is built from the declared name; the mandatorily
property is carried over. The node_id is the composite type:object_id
key. -/
def resolveCommandOrScript (nodes : List PackNode) (src : Nat)
    (d : DependencyDecl) : List MpUses :=
  if d.target_type = .COMMAND_OR_SCRIPT then
    match nodes.findIdx? (fun nd =>
        nd.node_id == "Command:" ++ d.target
          || nd.node_id == "Script:" ++ d.target) with
    | some j => [⟨src, j, d.mandatorily⟩]
    | none => []
  else []

/-- Modelled from the spec: the built graph of the C5 scenario. Pack A
holds Script s1 (position 2) whose code is the given body; pack B holds
Integration i1 (position 3) exposing a Command (position 4) named
cmdName; the Command node is owned by pack B like the integration that
exposes it. The USES relationships are those resolved from the script
parser's declarations for the body. -/
def scenarioGraph (cmdName : String) (body : String) : DepGraph :=
  let nodes : List PackNode :=
    [⟨"A", "Pack:A", ["xsoar"]⟩,
     ⟨"B", "Pack:B", ["xsoar"]⟩,
     ⟨"s1", "Script:s1", ["xsoar"]⟩,
     ⟨"i1", "Integration:i1", ["xsoar"]⟩,
     ⟨cmdName, "Command:" ++ cmdName, ["xsoar"]⟩]
  let decls := ScriptParser.connect_to_dependencies [] body
  ⟨nodes, decls.flatMap (resolveCommandOrScript nodes 2),
   [(2, 0), (3, 1), (4, 1)]⟩

/-! ## Concrete graphs used by witnesses and counterexamples -/

/-- A two-pack graph whose only USES edge is non-mandatory: item 2 of
pack 0 uses item 3 of pack 1, mandatorily false. -/
def gMandFalse : DepGraph :=
  ⟨[⟨"PA", "Pack:PA", ["m"]⟩, ⟨"PB", "Pack:PB", ["m"]⟩,
    ⟨"a", "Script:a", ["m"]⟩, ⟨"b", "Script:b", ["m"]⟩],
   [⟨2, 3, false⟩], [(2, 0), (3, 1)]⟩

/-- A two-node repair graph with distinct node ids: node 0 is tagged
with marketplace m and mandatorily uses node 1, which is not tagged. -/
def gTwoNode : MpGraph :=
  ⟨[⟨"x", ["m"]⟩, ⟨"d", []⟩], [⟨0, 1, true⟩]⟩

/-- A repair graph with an alternative pair: node 0 (tagged m) uses
node 1 (untagged, node id n); node 2 is an alternative for node 1 (same
node id n, tagged m) and itself mandatorily uses the untagged node 3. -/
def gAlt : MpGraph :=
  ⟨[⟨"x", ["m"]⟩, ⟨"n", []⟩, ⟨"n", ["m"]⟩, ⟨"d", []⟩],
   [⟨0, 1, true⟩, ⟨2, 3, true⟩]⟩

/-- A playbook task that is not connected to any branch but carries both
a filter operator in a script argument's complex value and a script
name. -/
def taskUnconnected : PlaybookTask :=
  ⟨none, some "scr", none, none, [], [], "regular", [],
   [some ⟨[["op"]], []⟩]⟩

/-- A playbook task whose command is Builtin-prefixed and not in the
special command lists. -/
def taskBuiltin : PlaybookTask :=
  ⟨none, none, some "Builtin|||enrichIndicators", none, [], [], "regular",
   [], []⟩

/-- A playbook task whose command has the integration qualifier form. -/
def taskIntg : PlaybookTask :=
  ⟨none, none, some "intgr|||do-thing", none, [], [], "regular", [], []⟩

end DemistoSdk

namespace DemistoSdk

/-- Every enum member is listed in ContentTypes.all. -/
theorem ContentTypes.mem_all (t : ContentTypes) : t ∈ ContentTypes.all := by
  cases t <;> decide

/-- C9: the label set of every content type is exactly BaseContent plus
the type's own value, plus Playbook for TestPlaybook only and
CommandOrScript for Script and Command only; no other extra labels. -/
theorem c9_labels_exact :
    ∀ t : ContentTypes, (ContentTypes.labels t).toFinset =
      ({"BaseContent", t.value} : Finset String)
        ∪ (if t = ContentTypes.TEST_PLAYBOOK then {"Playbook"} else ∅)
        ∪ (if t = ContentTypes.SCRIPT ∨ t = ContentTypes.COMMAND
            then {"CommandOrScript"} else ∅) := by
  intro t
  cases t <;> decide

/-- C8 as stated is false: the folder name "Packx" is not the plural
form of any content type value, yet by_folder succeeds on it, returning
PACK instead of failing with an UnknownContentTypeError, because the
lookup only removes the final character whatever it is. -/
theorem c8_counterexample :
    ContentTypes.by_folder "Packx" = .ok .PACK ∧
      ∀ t : ContentTypes, ContentTypes.as_folder t ≠ "Packx" := by
  exact ⟨rfl, by decide⟩

/-- C8 amended: by_folder fails with an UnknownContentTypeError carrying
the folder name exactly when the folder with its final character removed
is not the value of any content type; folders that are a type value
followed by any single character succeed even when they are not the
plural form. -/
theorem c8_error_iff (folder : String) :
    ContentTypes.by_folder folder = .error ⟨folder⟩ ↔
      ∀ t : ContentTypes, t.value ≠ pyDropLastChar folder := by
  unfold ContentTypes.by_folder
  cases h : ContentTypes.all.find? (fun t => t.value == pyDropLastChar folder) with
  | some t =>
    have ht : t.value = pyDropLastChar folder := by
      have := List.find?_some h
      simpa [beq_iff_eq] using this
    constructor
    · intro hcontra
      exact absurd hcontra (by simp)
    · intro hall
      exact absurd ht (hall t)
  | none =>
    constructor
    · intro _ t
      have := List.find?_eq_none.mp h t (ContentTypes.mem_all t)
      simpa [beq_iff_eq] using this
    · intro _
      rfl

/-- C5 as stated is false: the body execute_command("cmd1", True) emits
no dependency declaration at all, because the capturing class of
EXECUTE_CMD_PATTERN has no digits and the name cmd1 contains one; in
consequence the built scenario graph has no USES relationship and the
collapse query produces no DEPENDS_ON relationship. -/
theorem c5_counterexample :
    ScriptParser.connect_to_dependencies [] "execute_command(\"cmd1\", True)" = [] ∧
      (scenarioGraph "cmd1" "execute_command(\"cmd1\", True)").uses = [] ∧
      create_depends_on_relationships
        (scenarioGraph "cmd1" "execute_command(\"cmd1\", True)") [] = [] := by
  refine ⟨rfl, rfl, rfl⟩

/-- C5 amended: for a command name drawn from the pattern's capture
class (letters, hyphen, underscore only — here cmdOne), the scenario
goes through: the script body yields one ambiguous, mandatory
USES_COMMAND_OR_SCRIPT declaration on cmdOne, it resolves to the
Command node exposed by the integration of pack B, and the collapse
query produces DEPENDS_ON from pack A to pack B with mandatorily true. -/
theorem c5_amended :
    ScriptParser.connect_to_dependencies [] "execute_command(\"cmdOne\", True)" =
        [⟨"cmdOne", .COMMAND_OR_SCRIPT, true⟩] ∧
      (scenarioGraph "cmdOne" "execute_command(\"cmdOne\", True)").uses =
        [⟨2, 4, true⟩] ∧
      create_depends_on_relationships
          (scenarioGraph "cmdOne" "execute_command(\"cmdOne\", True)") [] =
        [⟨0, 1, ["xsoar"], true⟩] := by
  refine ⟨rfl, rfl, rfl⟩

/-- C1 as stated is false: a non-mandatory USES edge does produce a
DEPENDS_ON relationship. In this graph every USES edge has mandatorily
false, yet the collapse query creates a DEPENDS_ON relationship (with
mandatorily false copied from the edge). -/
theorem c1_counterexample :
    (∀ r ∈ gMandFalse.uses, r.mandatorily = false) ∧
      create_depends_on_relationships gMandFalse [] =
        [⟨0, 1, ["m"], false⟩] := by
  exact ⟨by decide, rfl⟩

/-- C4 as stated is false: on gAlt, the first repair pass keeps
marketplace m on node 0 (its dependency has a tagged alternative) but
strips node 2; the second pass then also strips node 0, removing an
additional marketplace with no intervening graph change. -/
theorem c4_counterexample :
    (update_marketplaces_property gAlt "m").nodes[0]? = some ⟨"x", ["m"]⟩ ∧
      (update_marketplaces_property
        (update_marketplaces_property gAlt "m") "m").nodes[0]? =
        some ⟨"x", []⟩ := by
  exact ⟨rfl, rfl⟩

/-- C6 as stated is false: a task command prefixed Builtin and absent
from the special command lists yields no dependency declaration at all,
not a Script dependency, because the branch guarded by the absence of
the Builtin substring is skipped. -/
theorem c6_counterexample :
    taskBuiltin.script = some "Builtin|||enrichIndicators" ∧
      PlaybookParser.handle_command_task taskBuiltin true = [] := by
  exact ⟨rfl, rfl⟩

/-- C10 as stated is false: for a task that is not a node of the task
graph, a filter operator inside a script argument's complex value still
yields a mandatory declaration, because the filter/transformer handler
never receives the task's mandatory flag. -/
theorem c10_counterexample :
    ([] : List (String × Bool)).lookup "t1" = none ∧
      (⟨"op", .SCRIPT, true⟩ : DependencyDecl) ∈
        PlaybookParser.connect_to_dependencies [] [] [("t1", taskUnconnected)] := by
  exact ⟨rfl, by decide⟩

/-- pySplit never returns the empty list. -/
theorem pySplit_ne_nil (sep : Char) (l : List Char) : pySplit sep l ≠ [] := by
  cases l with
  | nil => simp [pySplit]
  | cons c cs =>
    rw [pySplit]
    split
    · simp
    · cases hp : pySplit sep cs <;> simp

/-- getLastD does not depend on the default for a nonempty list. -/
theorem getLastD_default_irrel {α : Type} (l : List α) (h : l ≠ []) (a b : α) :
    l.getLastD a = l.getLastD b := by
  rw [List.getLastD_eq_getLast?, List.getLastD_eq_getLast?]
  cases hl : l.getLast? with
  | none => exact absurd (List.getLast?_eq_none_iff.mp hl) h
  | some x => rfl

/-- pySplit on a list starting with the separator: an empty first field. -/
theorem pySplit_sep_cons (sep : Char) (r : List Char) :
    pySplit sep (sep :: r) = [] :: pySplit sep r := by
  simp [pySplit]

/-- pySplit across the first separator occurrence, when the segment
before it is separator-free. -/
theorem pySplit_append_sep (sep : Char) (a r : List Char) (ha : sep ∉ a) :
    pySplit sep (a ++ sep :: r) = a :: pySplit sep r := by
  induction a with
  | nil => simpa using pySplit_sep_cons sep r
  | cons c a' ih =>
    have hc : c ≠ sep := fun h => ha (h ▸ List.mem_cons_self c a')
    have ha' : sep ∉ a' := fun h => ha (List.mem_cons_of_mem c h)
    rw [List.cons_append, pySplit, if_neg hc, ih ha']

/-- pySplit of a separator-free list is the single field. -/
theorem pySplit_no_sep (sep : Char) (l : List Char) (h : sep ∉ l) :
    pySplit sep l = [l] := by
  induction l with
  | nil => rfl
  | cons c cs ih =>
    have hc : c ≠ sep := fun hcc => h (hcc ▸ List.mem_cons_self c cs)
    have hcs : sep ∉ cs := fun hm => h (List.mem_cons_of_mem c hm)
    rw [pySplit, if_neg hc, ih hcs]

/-- A list containing the separator splits into at least two fields. -/
theorem two_le_length_pySplit (sep : Char) (l : List Char) (h : sep ∈ l) :
    2 ≤ (pySplit sep l).length := by
  induction l with
  | nil => cases h
  | cons c cs ih =>
    by_cases hc : c = sep
    · subst hc
      rw [pySplit_sep_cons]
      have h1 : 0 < (pySplit c cs).length :=
        List.length_pos.mpr (pySplit_ne_nil c cs)
      simpa using h1
    · have hcs : sep ∈ cs := by
        rcases List.mem_cons.mp h with h' | h'
        · exact absurd h'.symm hc
        · exact h'
      cases hp : pySplit sep cs with
      | nil => exact absurd hp (pySplit_ne_nil sep cs)
      | cons x t =>
        have := ih hcs
        rw [hp] at this
        rw [pySplit, if_neg hc, hp]
        simpa using this

/-- The last field of a split only depends on what follows the last
separator: splitting across any separator occurrence keeps the last
field of the remainder. -/
theorem pySplit_getLastD_append (sep : Char) (a r : List Char) :
    (pySplit sep (a ++ sep :: r)).getLastD [] =
      (pySplit sep r).getLastD [] := by
  induction a with
  | nil =>
    rw [List.nil_append, pySplit_sep_cons, List.getLastD_cons]
  | cons c a' ih =>
    by_cases hc : c = sep
    · subst hc
      rw [List.cons_append, pySplit_sep_cons, List.getLastD_cons]
      exact ih
    · cases hp : pySplit sep (a' ++ sep :: r) with
      | nil => exact absurd hp (pySplit_ne_nil sep _)
      | cons x t =>
        have ht : t ≠ [] := by
          have h2 := two_le_length_pySplit sep (a' ++ sep :: r)
            (by simp)
          rw [hp] at h2
          cases t with
          | nil => simp at h2
          | cons y t' => simp
        rw [List.cons_append, pySplit, if_neg hc, hp]
        rw [List.getLastD_cons, getLastD_default_irrel t ht (c :: x) x,
          ← List.getLastD_cons ([] : List Char) x t, ← hp]
        exact ih

/-- String append acts as list append on the character lists. -/
theorem toList_append (s t : String) :
    (s ++ t).toList = s.toList ++ t.toList := by
  cases s
  cases t
  rfl

/-- A string with a nonempty character list is not the empty string. -/
theorem ne_empty_of_toList_ne_nil {s : String} (h : s.toList ≠ []) :
    s ≠ "" := by
  intro he
  subst he
  exact h rfl

/-- C7: parsing a Script whose dependson.must list is
[integration qualifier ++ pipe ++ command] (and whose code is empty)
yields exactly one ambiguous mandatory declaration targeting the
command: the qualifier up to the last pipe is stripped. -/
theorem c7_strip_qualifier (i c : String) (hc : '|' ∉ c.toList) :
    ScriptParser.connect_to_dependencies [i ++ "|" ++ c] "" =
      [⟨c, .COMMAND_OR_SCRIPT, true⟩] := by
  have key : pySplitLastField '|' (i ++ "|" ++ c) = c := by
    unfold pySplitLastField
    have htl : (i ++ "|" ++ c).toList = i.toList ++ '|' :: c.toList := by
      rw [toList_append, toList_append]
      simp
    rw [htl, pySplit_getLastD_append, pySplit_no_sep '|' c.toList hc]
    simpa using String.asString_toList c
  show (ScriptParser.get_depends_on [i ++ "|" ++ c]).map ScriptParser.add_dependency
      ++ (ScriptParser.get_command_executions "").map ScriptParser.add_dependency
    = [⟨c, .COMMAND_OR_SCRIPT, true⟩]
  have hexec : ScriptParser.get_command_executions "" = [] := rfl
  rw [hexec]
  unfold ScriptParser.get_depends_on
  rw [List.map_cons, List.map_nil, key]
  rfl

/-- C7 witness: the round-trip of the spec at the concrete entry. -/
theorem c7_witness :
    ScriptParser.connect_to_dependencies ["integration" ++ "|" ++ "do-thing"] "" =
      [⟨"do-thing", .COMMAND_OR_SCRIPT, true⟩] :=
  c7_strip_qualifier "integration" "do-thing" (by decide)

/-- handle_command_task reduces to its core on a present command. -/
theorem handle_command_task_some (t : PlaybookTask) (m : Bool) (cmd : String)
    (hs : t.script = some cmd) :
    PlaybookParser.handle_command_task t m =
      PlaybookParser.handle_command_core t m cmd := by
  unfold PlaybookParser.handle_command_task
  rw [hs]

/-- C6 amended: for a command task whose command string contains neither
setIncident nor setIndicator and is not a list command, the pipe-split
branches behave as follows: with a nonempty pipe-free integration
qualifier before the triple pipe and no Builtin substring, the task
yields exactly a dependency on the Integration; with an empty qualifier,
exactly a dependency on the bare Command; and when the command contains
the Builtin substring (and is outside the special lists), no dependency
at all is produced, rather than a Script dependency. -/
theorem c6_command_cases (t : PlaybookTask) (m : Bool) (cmd : String)
    (hs : t.script = some cmd)
    (hInc : hasSubstr "setIncident" cmd = false)
    (hInd : hasSubstr "setIndicator" cmd = false)
    (hList : cmd ∉ PlaybookParser.LIST_COMMANDS) :
    (∀ i c : String, cmd = i ++ "|||" ++ c → i.toList ≠ [] →
        '|' ∉ i.toList → '|' ∉ c.toList → hasSubstr "Builtin" cmd = false →
        PlaybookParser.handle_command_task t m = [⟨i, .INTEGRATION, m⟩])
  ∧ (∀ c : String, cmd = "|||" ++ c → '|' ∉ c.toList →
        hasSubstr "Builtin" cmd = false →
        PlaybookParser.handle_command_task t m = [⟨c, .COMMAND, m⟩])
  ∧ (hasSubstr "Builtin" cmd = true →
        PlaybookParser.handle_command_task t m = []) := by
  refine ⟨?_, ?_, ?_⟩
  · intro i c hcmd hine hip hcp hB
    subst hcmd
    have htl : (i ++ "|||" ++ c).toList =
        i.toList ++ '|' :: '|' :: '|' :: c.toList := by
      rw [toList_append, toList_append]
      simp
    have hsplit : pySplit '|' (i ++ "|||" ++ c).toList =
        i.toList :: [] :: [] :: [c.toList] := by
      rw [htl, pySplit_append_sep '|' i.toList _ hip, pySplit_sep_cons,
        pySplit_sep_cons, pySplit_no_sep '|' c.toList hcp]
    have hne : (i ++ "|||" ++ c) ≠ "" := by
      apply ne_empty_of_toList_ne_nil
      rw [htl]
      simp
    have hpipe : '|' ∈ (i ++ "|||" ++ c).toList := by
      rw [htl]
      simp
    rw [handle_command_task_some t m _ hs]
    unfold PlaybookParser.handle_command_core
    rw [if_neg hne, hInc, hInd, hB]
    rw [if_neg (by simp : ¬ (false = true)), if_neg (by simp : ¬ (false = true)),
      if_neg hList, if_neg (by simp : ¬ (false = true)), if_pos hpipe, hsplit]
    have hhead : ((i.toList :: [] :: [] :: [c.toList]).headD []).asString = i := by
      simpa using String.asString_toList i
    rw [hhead, if_neg (ne_empty_of_toList_ne_nil hine)]
  · intro c hcmd hcp hB
    subst hcmd
    have htl : ("|||" ++ c).toList = '|' :: '|' :: '|' :: c.toList := by
      rw [toList_append]
      simp
    have hsplit : pySplit '|' ("|||" ++ c).toList =
        [] :: [] :: [] :: [c.toList] := by
      rw [htl, pySplit_sep_cons, pySplit_sep_cons, pySplit_sep_cons,
        pySplit_no_sep '|' c.toList hcp]
    have hne : ("|||" ++ c) ≠ "" := by
      apply ne_empty_of_toList_ne_nil
      rw [htl]
      simp
    have hpipe : '|' ∈ ("|||" ++ c).toList := by
      rw [htl]
      simp
    rw [handle_command_task_some t m _ hs]
    unfold PlaybookParser.handle_command_core
    rw [if_neg hne, hInc, hInd, hB]
    rw [if_neg (by simp : ¬ (false = true)), if_neg (by simp : ¬ (false = true)),
      if_neg hList, if_neg (by simp : ¬ (false = true)), if_pos hpipe, hsplit]
    have hhead : (([] :: [] :: [] :: [c.toList]).headD ([] : List Char)).asString
        = "" := rfl
    rw [hhead, if_pos rfl]
    have hlast : (([] :: [] :: [] :: [c.toList]).getLastD ([] : List Char)) =
        c.toList := by
      rw [List.getLastD_cons, List.getLastD_cons, List.getLastD_cons]
      rfl
    rw [hlast, String.asString_toList]
  · intro hB
    by_cases hne : cmd = ""
    · rw [handle_command_task_some t m _ hs]
      unfold PlaybookParser.handle_command_core
      rw [if_pos hne]
    · rw [handle_command_task_some t m _ hs]
      unfold PlaybookParser.handle_command_core
      rw [if_neg hne, hInc, hInd, hB]
      rw [if_neg (by simp : ¬ (false = true)),
        if_neg (by simp : ¬ (false = true)), if_neg hList, if_pos rfl]

/-- C6 witness: the integration-qualifier case at a concrete task. -/
theorem c6_witness :
    PlaybookParser.handle_command_task taskIntg true =
      [⟨"intgr", .INTEGRATION, true⟩] :=
  (c6_command_cases taskIntg true "intgr|||do-thing" rfl rfl rfl
      (by decide)).1 "intgr" "do-thing" (by decide) (by decide) (by decide)
    (by decide) rfl

/-- Every declaration of handle_playbook_task carries the given flag. -/
theorem handle_playbook_task_flag (t : PlaybookTask) (m : Bool)
    (d : DependencyDecl) (hd : d ∈ PlaybookParser.handle_playbook_task t m) :
    d.mandatorily = m := by
  cases hp : t.playbookName with
  | none => simp [PlaybookParser.handle_playbook_task, hp] at hd
  | some p =>
    simp [PlaybookParser.handle_playbook_task, hp] at hd
    rw [hd.2]

/-- Every declaration of handle_script_task carries the given flag. -/
theorem handle_script_task_flag (t : PlaybookTask) (m : Bool)
    (d : DependencyDecl) (hd : d ∈ PlaybookParser.handle_script_task t m) :
    d.mandatorily = m := by
  cases hp : t.scriptName with
  | none => simp [PlaybookParser.handle_script_task, hp] at hd
  | some p =>
    simp [PlaybookParser.handle_script_task, hp] at hd
    rw [hd.2]

/-- Every declaration of handle_command_task carries the given flag. -/
theorem handle_command_task_flag (t : PlaybookTask) (m : Bool)
    (d : DependencyDecl) (hd : d ∈ PlaybookParser.handle_command_task t m) :
    d.mandatorily = m := by
  cases hp : t.script with
  | none => simp [PlaybookParser.handle_command_task, hp] at hd
  | some cmd =>
    rw [handle_command_task_some t m cmd hp] at hd
    unfold PlaybookParser.handle_command_core at hd
    split_ifs at hd
    · simp at hd
    · obtain ⟨f, hf, heq⟩ := List.mem_map.mp hd
      rw [← heq]
    · obtain ⟨f, hf, heq⟩ := List.mem_map.mp hd
      rw [← heq]
    · cases hl : t.listName with
      | none => rw [hl] at hd; simp at hd
      | some l =>
        rw [hl] at hd
        simp at hd
        rw [hd.2]
    · simp at hd
    · rw [List.mem_singleton] at hd
      rw [hd]
    · rw [List.mem_singleton] at hd
      rw [hd]
    · rw [List.mem_singleton] at hd
      rw [hd]

/-- Every declaration of handle_field_mapping carries the given flag. -/
theorem handle_field_mapping_flag (bf : List String) (t : PlaybookTask)
    (m : Bool) (d : DependencyDecl)
    (hd : d ∈ PlaybookParser.handle_field_mapping bf t m) :
    d.mandatorily = m := by
  unfold PlaybookParser.handle_field_mapping at hd
  rw [List.mem_filterMap] at hd
  rcases hd with ⟨f, _, hf⟩
  split at hf
  · simp at hf
  · rw [Option.some.injEq] at hf
    rw [← hf]

/-- Every declaration of the four flag-passing handlers carries the
given flag. -/
theorem flag_passing_handlers_flag (bf : List String) (t : PlaybookTask)
    (m : Bool) (d : DependencyDecl)
    (hd : d ∈ PlaybookParser.flag_passing_handlers bf t m) :
    d.mandatorily = m := by
  unfold PlaybookParser.flag_passing_handlers at hd
  rw [List.append_assoc, List.append_assoc, List.mem_append] at hd
  rcases hd with hd | hd
  · exact handle_playbook_task_flag t m d hd
  · rw [List.mem_append] at hd
    rcases hd with hd | hd
    · exact handle_script_task_flag t m d hd
    · rw [List.mem_append] at hd
      rcases hd with hd | hd
      · exact handle_command_task_flag t m d hd
      · exact handle_field_mapping_flag bf t m d hd

/-- Every declaration from a complex value's filters and transformers is
mandatory (the default flag). -/
theorem complex_value_flag (cv : ComplexValue) (d : DependencyDecl)
    (hd : d ∈ PlaybookParser.add_complex_input_filters_and_transformers cv) :
    d.mandatorily = true := by
  unfold PlaybookParser.add_complex_input_filters_and_transformers at hd
  rw [List.mem_append] at hd
  rcases hd with hd | hd
  · rw [List.mem_flatMap] at hd
    rcases hd with ⟨f, _, hf⟩
    cases f with
    | nil => simp at hf
    | cons op rest =>
      rw [List.mem_singleton] at hf
      rw [hf]
  · rw [List.mem_map] at hd
    rcases hd with ⟨op, _, hop⟩
    rw [← hop]

/-- Every declaration of the filter/transformer handler is mandatory,
for any task. -/
theorem filter_transformer_flag (t : PlaybookTask) (d : DependencyDecl)
    (hd : d ∈ PlaybookParser.handle_task_filter_and_transformer_scripts t) :
    d.mandatorily = true := by
  unfold PlaybookParser.handle_task_filter_and_transformer_scripts at hd
  split at hd
  · rw [List.mem_flatMap] at hd
    rcases hd with ⟨entry, _, hd⟩
    rw [List.mem_flatMap] at hd
    rcases hd with ⟨inner, _, hd⟩
    rw [List.mem_flatMap] at hd
    rcases hd with ⟨cond, _, hd⟩
    rw [List.mem_append] at hd
    rcases hd with hd | hd
    · cases hl : cond.left with
      | none => rw [hl] at hd; simp at hd
      | some cv => rw [hl] at hd; exact complex_value_flag cv d hd
    · cases hr : cond.right with
      | none => rw [hr] at hd; simp at hd
      | some cv => rw [hr] at hd; exact complex_value_flag cv d hd
  · rw [List.mem_flatMap] at hd
    rcases hd with ⟨oc, _, hd⟩
    cases oc with
    | none => simp at hd
    | some cv => exact complex_value_flag cv d hd

/-- C10 amended: for a task whose id is not a node of the task graph,
every declaration extracted by the playbook, script, command and
field-mapping handlers is non-mandatory; the declarations of the
filter/transformer handler, however, are always mandatory (the
add_dependency default), regardless of the task's connectivity. -/
theorem c10_unconnected_flags (graph : List (String × Bool))
    (bf : List String) (tid : String) (t : PlaybookTask)
    (h : graph.lookup tid = none) :
    (∀ d ∈ PlaybookParser.flag_passing_handlers bf t
        (PlaybookParser.is_mandatory_dependency graph tid),
      d.mandatorily = false)
  ∧ (∀ d ∈ PlaybookParser.handle_task_filter_and_transformer_scripts t,
      d.mandatorily = true) := by
  have hm : PlaybookParser.is_mandatory_dependency graph tid = false := by
    unfold PlaybookParser.is_mandatory_dependency
    rw [h]
  rw [hm]
  exact ⟨fun d hd => flag_passing_handlers_flag bf t false d hd,
    fun d hd => filter_transformer_flag t d hd⟩

/-- C10 witness: the amended statement at the concrete unconnected
task. -/
theorem c10_witness :
    (∀ d ∈ PlaybookParser.flag_passing_handlers [] taskUnconnected
        (PlaybookParser.is_mandatory_dependency [] "t1"),
      d.mandatorily = false)
  ∧ (∀ d ∈ PlaybookParser.handle_task_filter_and_transformer_scripts
        taskUnconnected,
      d.mandatorily = true) :=
  c10_unconnected_flags [] [] "t1" taskUnconnected rfl

/-- Membership in the mandatory successor list is exactly one mandatory
step. -/
theorem mem_mandSucc (uses : List MpUses) (a b : Nat) :
    b ∈ mandSucc uses a ↔ MandStep uses a b := by
  unfold mandSucc MandStep
  rw [List.mem_map]
  constructor
  · rintro ⟨e, he, hdst⟩
    rw [List.mem_filter] at he
    rcases he with ⟨hmem, hcond⟩
    rw [Bool.and_eq_true, beq_iff_eq] at hcond
    exact ⟨e, hmem, hcond.1, hdst, hcond.2⟩
  · rintro ⟨e, hmem, hsrc, hdst, hmand⟩
    refine ⟨e, ?_, hdst⟩
    rw [List.mem_filter]
    exact ⟨hmem, by rw [Bool.and_eq_true, beq_iff_eq]; exact ⟨hsrc, hmand⟩⟩

/-- Membership in a saturation step. -/
theorem mem_stepClosure (uses : List MpUses) (s : List Nat) (x : Nat) :
    x ∈ stepClosure uses s ↔ x ∈ s ∨ ∃ y ∈ s, x ∈ mandSucc uses y := by
  unfold stepClosure
  rw [List.mem_dedup, List.mem_append, List.mem_flatMap]

/-- A saturation step only grows the set. -/
theorem subset_stepClosure (uses : List MpUses) (s : List Nat) :
    ∀ x ∈ s, x ∈ stepClosure uses s := by
  intro x hx
  exact (mem_stepClosure uses s x).mpr (Or.inl hx)

/-- The start set stays inside every iterate. -/
theorem mem_iterClosure_of_mem (uses : List MpUses) (k : Nat) (s : List Nat) :
    ∀ x ∈ s, x ∈ iterClosure uses k s := by
  induction k with
  | zero => exact fun x hx => hx
  | succ k ih => exact fun x hx => subset_stepClosure uses _ x (ih x hx)

/-- Iterates grow with the fuel. -/
theorem iterClosure_mono_fuel (uses : List MpUses) {k k' : Nat} (h : k ≤ k')
    (s : List Nat) : ∀ x ∈ iterClosure uses k s, x ∈ iterClosure uses k' s := by
  induction h with
  | refl => exact fun x hx => hx
  | step h ih =>
    exact fun x hx => subset_stepClosure uses _ x (ih x hx)

/-- Soundness: each iterate holds only nodes reachable from a, provided
the start set does. -/
theorem iterClosure_sound (uses : List MpUses) (a : Nat) (s : List Nat)
    (hs : ∀ y ∈ s, MandReach uses a y) (k : Nat) :
    ∀ x ∈ iterClosure uses k s, MandReach uses a x := by
  induction k with
  | zero => exact hs
  | succ k ih =>
    intro x hx
    rcases (mem_stepClosure uses _ x).mp hx with h | ⟨y, hy, hxy⟩
    · exact ih x h
    · exact Relation.TransGen.tail (ih y hy) ((mem_mandSucc uses y x).mp hxy)

/-- Every iterate beyond the start is duplicate-free. -/
theorem iterClosure_nodup (uses : List MpUses) (k : Nat) (s : List Nat)
    (hs : s.Nodup) : (iterClosure uses k s).Nodup := by
  cases k with
  | zero => exact hs
  | succ k => exact List.nodup_dedup _

/-- Iterates stay below the node bound when the start set and all edge
targets do. -/
theorem iterClosure_lt (uses : List MpUses) (n : Nat) (k : Nat) (s : List Nat)
    (hs : ∀ x ∈ s, x < n) (hu : ∀ e ∈ uses, e.dst < n) :
    ∀ x ∈ iterClosure uses k s, x < n := by
  induction k with
  | zero => exact hs
  | succ k ih =>
    intro x hx
    rcases (mem_stepClosure uses _ x).mp hx with h | ⟨y, _, hxy⟩
    · exact ih x h
    · rcases (mem_mandSucc uses y x).mp hxy with ⟨e, he, _, hdst, _⟩
      exact hdst ▸ hu e he

/-- A saturation step respects set equality. -/
theorem stepClosure_congr (uses : List MpUses) {s t : List Nat}
    (h : ∀ x, x ∈ s ↔ x ∈ t) :
    ∀ x, x ∈ stepClosure uses s ↔ x ∈ stepClosure uses t := by
  intro x
  rw [mem_stepClosure, mem_stepClosure]
  constructor
  · rintro (hx | ⟨y, hy, hxy⟩)
    · exact Or.inl ((h x).mp hx)
    · exact Or.inr ⟨y, (h y).mp hy, hxy⟩
  · rintro (hx | ⟨y, hy, hxy⟩)
    · exact Or.inl ((h x).mpr hx)
    · exact Or.inr ⟨y, (h y).mpr hy, hxy⟩

/-- Once two consecutive iterates agree as sets, all later iterates
agree with them. -/
theorem iterClosure_stable (uses : List MpUses) {s : List Nat} {k : Nat}
    (h : ∀ x, x ∈ iterClosure uses (k + 1) s ↔ x ∈ iterClosure uses k s) :
    ∀ d x, x ∈ iterClosure uses (k + d) s ↔ x ∈ iterClosure uses k s := by
  intro d
  induction d with
  | zero => exact fun x => Iff.rfl
  | succ d ih =>
    intro x
    have e1 : k + (d + 1) = (k + d) + 1 := rfl
    rw [e1]
    show x ∈ stepClosure uses (iterClosure uses (k + d) s) ↔ _
    calc x ∈ stepClosure uses (iterClosure uses (k + d) s)
        ↔ x ∈ stepClosure uses (iterClosure uses k s) :=
          stepClosure_congr uses ih x
      _ ↔ x ∈ iterClosure uses k s := h x

/-- A duplicate-free list of naturals below n has length at most n. -/
theorem length_le_of_nodup_lt (l : List Nat) (n : Nat) (hn : l.Nodup)
    (h : ∀ x ∈ l, x < n) : l.length ≤ n := by
  have hsub : l ⊆ List.range n := fun x hx => List.mem_range.mpr (h x hx)
  have := (hn.subperm hsub).length_le
  simpa using this

/-- Subset plus matching lengths of duplicate-free lists gives set
equality. -/
theorem set_eq_of_subset_of_length_le {l l' : List Nat} (hn : l.Nodup)
    (hs : l ⊆ l') (hl : l'.length ≤ l.length) : ∀ x, x ∈ l ↔ x ∈ l' :=
  fun x => ((hn.subperm hs).perm_of_length_le hl).mem_iff

/-- Saturation: after as many steps as the node bound, one more
saturation step adds nothing, provided the start set is duplicate-free
and everything stays below the bound. -/
theorem iterClosure_saturated (uses : List MpUses) (n : Nat) (s : List Nat)
    (hsN : s.Nodup) (hs : ∀ x ∈ s, x < n) (hu : ∀ e ∈ uses, e.dst < n) :
    ∀ x ∈ stepClosure uses (iterClosure uses n s), x ∈ iterClosure uses n s := by
  have key : ∀ m : Nat,
      (∃ k, k < m ∧ (∀ x, x ∈ iterClosure uses (k + 1) s ↔
        x ∈ iterClosure uses k s)) ∨ m ≤ (iterClosure uses m s).length := by
    intro m
    induction m with
    | zero => exact Or.inr (Nat.zero_le _)
    | succ m ih =>
      rcases ih with ⟨k, hk, hst⟩ | hlen
      · exact Or.inl ⟨k, Nat.lt_succ_of_lt hk, hst⟩
      · by_cases hstab : ∀ x, x ∈ iterClosure uses (m + 1) s ↔
            x ∈ iterClosure uses m s
        · exact Or.inl ⟨m, Nat.lt_succ_self m, hstab⟩
        · right
          have hsub : iterClosure uses m s ⊆ iterClosure uses (m + 1) s :=
            fun x hx => subset_stepClosure uses _ x hx
          have h1 : (iterClosure uses m s).Nodup :=
            iterClosure_nodup uses m s hsN
          have h2 : (iterClosure uses (m + 1) s).Nodup :=
            iterClosure_nodup uses (m + 1) s hsN
          have hle : (iterClosure uses m s).length ≤
              (iterClosure uses (m + 1) s).length :=
            (h1.subperm hsub).length_le
          rcases Nat.lt_or_ge (iterClosure uses m s).length
              (iterClosure uses (m + 1) s).length with hlt | hge
          · omega
          · exfalso
            apply hstab
            intro x
            exact (set_eq_of_subset_of_length_le h1 hsub hge x).symm
  rcases key n with ⟨k, hk, hst⟩ | hlen
  · have e1 : k + (n - k) = n := by omega
    have e2 : k + (n + 1 - k) = n + 1 := by omega
    have h1 := iterClosure_stable uses hst (n - k)
    have h2 := iterClosure_stable uses hst (n + 1 - k)
    rw [e1] at h1
    rw [e2] at h2
    intro x hx
    exact (h1 x).mpr ((h2 x).mp hx)
  · intro x hx
    have hsub : iterClosure uses n s ⊆ iterClosure uses (n + 1) s :=
      fun y hy => subset_stepClosure uses _ y hy
    have h1 : (iterClosure uses n s).Nodup := iterClosure_nodup uses n s hsN
    have h2 : (iterClosure uses (n + 1) s).Nodup :=
      iterClosure_nodup uses (n + 1) s hsN
    have hb2 : ∀ y ∈ iterClosure uses (n + 1) s, y < n :=
      iterClosure_lt uses n (n + 1) s hs hu
    have hub : (iterClosure uses (n + 1) s).length ≤ n :=
      length_le_of_nodup_lt _ n h2 hb2
    have heq := set_eq_of_subset_of_length_le h1 hsub (by omega)
    exact (heq x).mpr hx

/-- Bool containment on string lists agrees with membership. -/
theorem contains_iff_mem_str (l : List String) (a : String) :
    l.contains a = true ↔ a ∈ l := by
  simp [List.contains_iff_exists_mem_beq]

/-- The dependency-side filter holds exactly when the node exists, is
untagged, and every node sharing its node_id is untagged. -/
theorem badDependency_iff (g : MpGraph) (m : String) (j : Nat) :
    badDependency g m j = true ↔
      ∃ d, g.nodes[j]? = some d ∧ m ∉ d.marketplaces ∧
        ∀ alt ∈ g.nodes, alt.node_id = d.node_id → m ∉ alt.marketplaces := by
  unfold badDependency
  cases hg : g.nodes[j]? with
  | none => simp
  | some d =>
    rw [Bool.and_eq_true, Bool.not_eq_true', Bool.not_eq_true']
    constructor
    · rintro ⟨hnm, halt⟩
      refine ⟨d, rfl, ?_, ?_⟩
      · intro hmem
        rw [← contains_iff_mem_str] at hmem
        rw [hmem] at hnm
        cases hnm
      · intro alt hmem hnid hm
        unfold hasAlternative at halt
        rw [List.any_eq_false] at halt
        apply halt alt hmem
        rw [Bool.and_eq_true, beq_iff_eq]
        exact ⟨hnid, (contains_iff_mem_str _ _).mpr hm⟩
    · rintro ⟨d', hd', hnm, halt⟩
      rw [Option.some.injEq] at hd'
      subst hd'
      constructor
      · cases hc : d.marketplaces.contains m with
        | false => rfl
        | true => exact absurd ((contains_iff_mem_str _ _).mp hc) hnm
      · unfold hasAlternative
        rw [List.any_eq_false]
        intro alt hmem
        intro hcontra
        rw [Bool.and_eq_true, beq_iff_eq] at hcontra
        exact halt alt hmem hcontra.1 ((contains_iff_mem_str _ _).mp hcontra.2)

/-- The saturating closure computes exactly the mandatory-USES-path
reachability of the Cypher variable-length match: b is in the closure
from a if and only if a mandatory path of positive length runs from a
to b. -/
theorem mem_reachableFrom_iff (uses : List MpUses) (n a b : Nat)
    (hu : ∀ e ∈ uses, e.dst < n) :
    b ∈ reachableFrom uses n a ↔ MandReach uses a b := by
  have hs0 : ∀ x ∈ (mandSucc uses a).dedup, x < n := by
    intro x hx
    rw [List.mem_dedup] at hx
    rcases (mem_mandSucc uses a x).mp hx with ⟨e, he, _, hdst, _⟩
    exact hdst ▸ hu e he
  constructor
  · intro h
    refine iterClosure_sound uses a _ ?_ n b h
    intro y hy
    rw [List.mem_dedup] at hy
    exact Relation.TransGen.single ((mem_mandSucc uses a y).mp hy)
  · intro h
    induction h with
    | single hstep =>
      apply mem_iterClosure_of_mem
      rw [List.mem_dedup, mem_mandSucc]
      exact hstep
    | tail hab hstep ih =>
      apply iterClosure_saturated uses n _ (List.nodup_dedup _) hs0 hu
      rw [mem_stepClosure]
      right
      exact ⟨_, ih, (mem_mandSucc uses _ _).mpr hstep⟩

/-- The executable matched-row condition agrees with the spec's removal
condition on well-formed graphs. -/
theorem shouldRemove_iff (g : MpGraph) (m : String) (i : Nat) (ci : MpNode)
    (hwf : g.wf) :
    shouldRemove g m i ci = true ↔ SpecRemovalCondition g m i ci := by
  have hdst : ∀ e ∈ g.uses, e.dst < g.nodes.length := fun e he => (hwf e he).2
  unfold shouldRemove SpecRemovalCondition
  rw [Bool.and_eq_true, List.any_eq_true, contains_iff_mem_str]
  constructor
  · rintro ⟨hm, j, hj, hbad⟩
    rcases (badDependency_iff g m j).mp hbad with ⟨d, hget, hnm, halt⟩
    exact ⟨hm, j, d,
      (mem_reachableFrom_iff g.uses g.nodes.length i j hdst).mp hj,
      hget, hnm, halt⟩
  · rintro ⟨hm, j, d, hreach, hget, hnm, halt⟩
    refine ⟨hm, j,
      (mem_reachableFrom_iff g.uses g.nodes.length i j hdst).mpr hreach, ?_⟩
    exact (badDependency_iff g m j).mpr ⟨d, hget, hnm, halt⟩

/-- Position lookup through the node-updating walk. -/
theorem updateNodes_getElem (g : MpGraph) (m : String) :
    ∀ (l : List MpNode) (k i : Nat),
      (updateNodes g m k l)[i]? = (l[i]?).map (fun c =>
        if shouldRemove g m (k + i) c then removeMarketplace m c else c) := by
  intro l
  induction l with
  | nil =>
    intro k i
    simp [updateNodes]
  | cons c cs ih =>
    intro k i
    cases i with
    | zero =>
      simp [updateNodes]
    | succ i =>
      rw [updateNodes, List.getElem?_cons_succ, List.getElem?_cons_succ,
        ih (k + 1) i]
      have e1 : k + 1 + i = k + (i + 1) := by omega
      rw [e1]

/-- The repair pass keeps the node list's length. -/
theorem updateNodes_length (g : MpGraph) (m : String) :
    ∀ (l : List MpNode) (k : Nat), (updateNodes g m k l).length = l.length := by
  intro l
  induction l with
  | nil => intro k; rfl
  | cons c cs ih =>
    intro k
    rw [updateNodes, List.length_cons, List.length_cons, ih (k + 1)]

/-- C2: the repair query for marketplace m removes m from the content
item at position i exactly when the item is tagged with m and has a
mandatory USES path of some positive length to a dependency not tagged
with m such that no node sharing the dependency's node_id is tagged
with m; any item without such a path keeps its marketplaces unchanged. -/
theorem c2_repair_exact (g : MpGraph) (m : String) (i : Nat) (ci : MpNode)
    (hwf : g.wf) (hget : g.nodes[i]? = some ci) :
    (SpecRemovalCondition g m i ci →
      (update_marketplaces_property g m).nodes[i]? =
        some ⟨ci.node_id, ci.marketplaces.filter (fun mp => mp ≠ m)⟩)
  ∧ (¬ SpecRemovalCondition g m i ci →
      (update_marketplaces_property g m).nodes[i]? = some ci) := by
  have hup : (update_marketplaces_property g m).nodes[i]? =
      (g.nodes[i]?).map (fun c =>
        if shouldRemove g m i c then removeMarketplace m c else c) := by
    show (updateNodes g m 0 g.nodes)[i]? = _
    rw [updateNodes_getElem g m g.nodes 0 i, Nat.zero_add]
  constructor
  · intro hcond
    have hb : shouldRemove g m i ci = true :=
      (shouldRemove_iff g m i ci hwf).mpr hcond
    rw [hup, hget, Option.map_some', if_pos hb]
    rfl
  · intro hcond
    have hb : shouldRemove g m i ci = false := by
      cases hsr : shouldRemove g m i ci with
      | false => rfl
      | true =>
        exact absurd ((shouldRemove_iff g m i ci hwf).mp hsr) hcond
    rw [hup, hget, Option.map_some', hb]
    simp

/-- C2 witness: on the concrete two-node graph, the removal condition
holds for node 0 and the pass strips marketplace m from it. -/
theorem c2_witness :
    (update_marketplaces_property gTwoNode "m").nodes[0]? =
      some ⟨"x", ["m"].filter (fun mp => mp ≠ "m")⟩ :=
  (c2_repair_exact gTwoNode "m" 0 ⟨"x", ["m"]⟩
      (by unfold MpGraph.wf; decide) rfl).1
    ⟨by decide, 1, ⟨"d", []⟩,
      Relation.TransGen.single ⟨⟨0, 1, true⟩, by decide, rfl, rfl, rfl⟩,
      rfl, by decide, by decide⟩

/-- The per-position update of the repair pass keeps the node_id. -/
theorem update_node_id (g : MpGraph) (m : String) (i : Nat) (c : MpNode) :
    (if shouldRemove g m i c then removeMarketplace m c else c).node_id =
      c.node_id := by
  split <;> rfl

/-- The per-position update of the repair pass only removes
marketplaces. -/
theorem update_marketplaces_subset (g : MpGraph) (m : String) (i : Nat)
    (c : MpNode) (x : String)
    (hx : x ∈ (if shouldRemove g m i c
        then removeMarketplace m c else c).marketplaces) :
    x ∈ c.marketplaces := by
  revert hx
  split
  · exact fun hx => List.mem_of_mem_filter hx
  · exact fun hx => hx

/-- Position lookup of the repaired graph. -/
theorem update_getElem (g : MpGraph) (m : String) (i : Nat) :
    (update_marketplaces_property g m).nodes[i]? = (g.nodes[i]?).map (fun c =>
      if shouldRemove g m i c then removeMarketplace m c else c) := by
  show (updateNodes g m 0 g.nodes)[i]? = _
  rw [updateNodes_getElem g m g.nodes 0 i, Nat.zero_add]

/-- Two positions holding nodes with the same node_id coincide when the
node_id projection of the list is duplicate-free. -/
theorem nodup_node_id_inj (l : List MpNode)
    (hinj : (l.map MpNode.node_id).Nodup) (p q : Nat) (x y : MpNode)
    (hp : l[p]? = some x) (hq : l[q]? = some y)
    (hxy : x.node_id = y.node_id) : p = q := by
  have hp' : (l.map MpNode.node_id)[p]? = some x.node_id := by
    rw [List.getElem?_map MpNode.node_id l p, hp]
    rfl
  have hq' : (l.map MpNode.node_id)[q]? = some y.node_id := by
    rw [List.getElem?_map MpNode.node_id l q, hq]
    rfl
  have hlt : p < (l.map MpNode.node_id).length :=
    (List.getElem?_eq_some.mp hp').1
  apply List.getElem?_inj hlt hinj
  rw [hp', hq', hxy]

/-- C4 amended: when every node's node_id is unique (no alternative
nodes), the repair pass is idempotent: a second run with no intervening
graph change leaves every content item's entry unchanged. The
counterexample shows the restriction is necessary: with duplicate
node_ids a tagged alternative can lose the marketplace in the first run
and enable a removal in the second. -/
theorem c4_unique_ids_idempotent (g : MpGraph) (m : String) (hwf : g.wf)
    (hinj : (g.nodes.map MpNode.node_id).Nodup) :
    ∀ k : Nat, (update_marketplaces_property
        (update_marketplaces_property g m) m).nodes[k]? =
      (update_marketplaces_property g m).nodes[k]? := by
  have hlen : (update_marketplaces_property g m).nodes.length =
      g.nodes.length := updateNodes_length g m g.nodes 0
  have hwf1 : (update_marketplaces_property g m).wf := by
    intro e he
    rw [hlen]
    exact hwf e he
  have main : ∀ i ci1,
      (update_marketplaces_property g m).nodes[i]? = some ci1 →
      shouldRemove (update_marketplaces_property g m) m i ci1 = false := by
    intro i ci1 hget1
    cases hsr : shouldRemove (update_marketplaces_property g m) m i ci1 with
    | false => rfl
    | true =>
      exfalso
      rcases (shouldRemove_iff _ m i ci1 hwf1).mp hsr with
        ⟨hm1, j, d1, hreach1, hget1j, hnm1, halt1⟩
      have hreachg : MandReach g.uses i j := hreach1
      -- decompose the first-pass entry at i
      have hgi := update_getElem g m i
      rw [hget1] at hgi
      rcases Option.map_eq_some'.mp hgi.symm with ⟨ci, hci, hupdi⟩
      have hci1 : ci1 = ci := by
        cases hsrg : shouldRemove g m i ci with
        | false =>
          rw [hsrg] at hupdi
          simp at hupdi
          exact hupdi.symm
        | true =>
          exfalso
          rw [hsrg] at hupdi
          simp at hupdi
          rw [← hupdi] at hm1
          unfold removeMarketplace at hm1
          rcases List.mem_filter.mp hm1 with ⟨_, hne⟩
          simp at hne
      have hsrg : shouldRemove g m i ci = false := by
        cases hsrg : shouldRemove g m i ci with
        | false => rfl
        | true =>
          exfalso
          rw [hsrg] at hupdi
          subst hci1
          rw [← hupdi] at hm1
          unfold removeMarketplace at hm1
          rcases List.mem_filter.mp hm1 with ⟨_, hne⟩
          simp at hne
      have hm : m ∈ ci.marketplaces := hci1 ▸ hm1
      -- decompose the first-pass entry at j
      have hgj := update_getElem g m j
      rw [hget1j] at hgj
      rcases Option.map_eq_some'.mp hgj.symm with ⟨d, hdj, hupdj⟩
      have hcontra : SpecRemovalCondition g m i ci := by
        cases hd : shouldRemove g m j d with
        | true =>
          rcases (shouldRemove_iff g m j d hwf).mp hd with
            ⟨_, e, dd, hreach2, hgete, hnmd, haltd⟩
          exact ⟨hm, e, dd, Relation.TransGen.trans hreachg hreach2,
            hgete, hnmd, haltd⟩
        | false =>
          have hd1 : d1 = d := by
            rw [hd] at hupdj
            simp at hupdj
            exact hupdj.symm
          subst hd1
          refine ⟨hm, j, d1, hreachg, hdj, hnm1, ?_⟩
          intro alt hmem hnid hmm
          rcases List.mem_iff_getElem?.mp hmem with ⟨p, hp⟩
          have hpj : p = j := nodup_node_id_inj g.nodes hinj p j alt d1 hp hdj hnid
          rw [hpj, hdj, Option.some.injEq] at hp
          rw [← hp] at hmm
          exact hnm1 hmm
      exact absurd ((shouldRemove_iff g m i ci hwf).mpr hcontra) (by rw [hsrg]; simp)
  intro k
  rw [update_getElem (update_marketplaces_property g m) m k]
  cases h1 : (update_marketplaces_property g m).nodes[k]? with
  | none => rfl
  | some ci1 =>
    rw [Option.map_some', main k ci1 h1]
    simp

/-- C4 witness: the amended statement at the concrete two-node graph
with unique node ids, at position 0. -/
theorem c4_witness :
    (update_marketplaces_property
        (update_marketplaces_property gTwoNode "m") "m").nodes[0]? =
      (update_marketplaces_property gTwoNode "m").nodes[0]? :=
  c4_unique_ids_idempotent gTwoNode "m" (by unfold MpGraph.wf; decide)
    (by decide) 0

/-- Membership in a candidate row list, characterized. -/
theorem mem_rowCandidate (g : DepGraph) (ig : List String) (r : MpUses)
    (ipa ipb : Nat × Nat) (row : DependsOnRow) :
    row ∈ rowCandidate g ig r ipa ipb ↔
      ipa.1 = r.src ∧ ipb.1 = r.dst ∧
      (∃ pa pb a b, g.nodes[ipa.2]? = some pa ∧ g.nodes[ipb.2]? = some pb ∧
        g.nodes[r.src]? = some a ∧ g.nodes[r.dst]? = some b ∧
        collapseCond ig pa pb b = true) ∧
      row = ⟨ipa.2, ipb.2, r.mandatorily⟩ := by
  unfold rowCandidate
  by_cases h1 : ipa.1 = r.src ∧ ipb.1 = r.dst
  · rw [if_pos h1]
    obtain ⟨ha, hb⟩ := h1
    cases hpa : g.nodes[ipa.2]? <;> cases hpb : g.nodes[ipb.2]? <;>
      cases hsrc : g.nodes[r.src]? <;> cases hdst : g.nodes[r.dst]? <;>
      simp [ha, hb]
  · rw [if_neg h1]
    simp only [List.not_mem_nil, false_iff]
    intro hcon
    exact h1 ⟨hcon.1, hcon.2.1⟩

/-- Membership in the matched rows of the collapse query. -/
theorem mem_create_depends_on_rows (g : DepGraph) (ig : List String)
    (row : DependsOnRow) :
    row ∈ create_depends_on_rows g ig ↔
      ∃ r ∈ g.uses, ∃ ipa ∈ g.in_pack, ∃ ipb ∈ g.in_pack,
        ipa.1 = r.src ∧ ipb.1 = r.dst ∧
        (∃ pa pb a b, g.nodes[ipa.2]? = some pa ∧
          g.nodes[ipb.2]? = some pb ∧ g.nodes[r.src]? = some a ∧
          g.nodes[r.dst]? = some b ∧ collapseCond ig pa pb b = true) ∧
        row = ⟨ipa.2, ipb.2, r.mandatorily⟩ := by
  unfold create_depends_on_rows
  simp only [List.mem_flatMap, mem_rowCandidate]

/-- The pack pairs of the merge of one row: the pairs already present,
plus the row's pair. -/
theorem pair_mem_mergeDependsOn (g : DepGraph) (acc : List DependsOnEdge)
    (row : DependsOnRow) (i j : Nat) :
    (∃ e ∈ mergeDependsOn g acc row, e.src = i ∧ e.dst = j) ↔
      (∃ e ∈ acc, e.src = i ∧ e.dst = j) ∨
        (row.pack_a = i ∧ row.pack_b = j) := by
  unfold mergeDependsOn
  by_cases h : acc.any (fun e => e.src == row.pack_a && e.dst == row.pack_b)
      = true
  · rw [if_pos h]
    rcases List.any_eq_true.mp h with ⟨e0, he0, hcond⟩
    rw [Bool.and_eq_true, beq_iff_eq, beq_iff_eq] at hcond
    constructor
    · rintro ⟨e, he, hij⟩
      rcases List.mem_map.mp he with ⟨e1, he1, heq⟩
      by_cases hc : e1.src = row.pack_a ∧ e1.dst = row.pack_b
      · rw [if_pos hc] at heq
        subst heq
        right
        exact ⟨hc.1 ▸ hij.1, hc.2 ▸ hij.2⟩
      · rw [if_neg hc] at heq
        subst heq
        exact Or.inl ⟨e1, he1, hij⟩
    · rintro (⟨e, he, hij⟩ | ⟨hi, hj⟩)
      · refine ⟨if e.src = row.pack_a ∧ e.dst = row.pack_b then
            ⟨e.src, e.dst, commonMarketplaces g row, row.mandatorily⟩
          else e, List.mem_map_of_mem _ he, ?_⟩
        split
        · exact hij
        · exact hij
      · refine ⟨if e0.src = row.pack_a ∧ e0.dst = row.pack_b then
            ⟨e0.src, e0.dst, commonMarketplaces g row, row.mandatorily⟩
          else e0, List.mem_map_of_mem _ he0, ?_⟩
        rw [if_pos hcond]
        exact ⟨hcond.1 ▸ hi, hcond.2 ▸ hj⟩
  · rw [if_neg h]
    constructor
    · rintro ⟨e, he, hij⟩
      rcases List.mem_append.mp he with he | he
      · exact Or.inl ⟨e, he, hij⟩
      · rw [List.mem_singleton] at he
        subst he
        exact Or.inr hij
    · rintro (⟨e, he, hij⟩ | ⟨hi, hj⟩)
      · exact ⟨e, List.mem_append_left _ he, hij⟩
      · exact ⟨⟨row.pack_a, row.pack_b, commonMarketplaces g row,
          row.mandatorily⟩,
          List.mem_append_right _ (List.mem_singleton_self _), hi, hj⟩

/-- The pack pairs of the folded merge: the pairs of the accumulator
plus the pairs of the rows. -/
theorem pair_mem_foldl (g : DepGraph) (rows : List DependsOnRow) :
    ∀ (acc : List DependsOnEdge) (i j : Nat),
      (∃ e ∈ rows.foldl (mergeDependsOn g) acc, e.src = i ∧ e.dst = j) ↔
        (∃ e ∈ acc, e.src = i ∧ e.dst = j) ∨
          ∃ row ∈ rows, row.pack_a = i ∧ row.pack_b = j := by
  induction rows with
  | nil =>
    intro acc i j
    simp
  | cons row rows ih =>
    intro acc i j
    rw [List.foldl_cons, ih (mergeDependsOn g acc row) i j,
      pair_mem_mergeDependsOn]
    simp only [List.mem_cons]
    constructor
    · rintro ((h | h) | ⟨row1, hmem, hp⟩)
      · exact Or.inl h
      · exact Or.inr ⟨row, Or.inl rfl, h⟩
      · exact Or.inr ⟨row1, Or.inr hmem, hp⟩
    · rintro (h | ⟨row1, hmem | hmem, hp⟩)
      · exact Or.inl (Or.inl h)
      · exact Or.inl (Or.inr (hmem ▸ hp))
      · exact Or.inr ⟨row1, hmem, hp⟩

/-- C1 amended: the collapse query creates or merges a DEPENDS_ON
relationship for the pack pair exactly when some item-level USES edge,
of either mandatorily value, runs between items of the two packs with
all four nodes present, pack ids distinct, neither pack id ignored, the
target item not an ignored content item, and a shared marketplace; the
relationship's mandatorily property is copied from a triggering edge
(last write wins), so non-mandatory USES edges do produce DEPENDS_ON
relationships. -/
theorem c1_collapse_iff (g : DepGraph) (ig : List String) (i j : Nat) :
    (∃ e ∈ create_depends_on_relationships g ig, e.src = i ∧ e.dst = j) ↔
      SpecCollapseProduces g ig i j := by
  unfold create_depends_on_relationships
  rw [pair_mem_foldl]
  simp only [List.not_mem_nil, false_and, exists_false, exists_and_right,
    false_or]
  unfold SpecCollapseProduces
  constructor
  · rintro ⟨row, hrow, hpi, hpj⟩
    rcases (mem_create_depends_on_rows g ig row).mp hrow with
      ⟨r, hr, ipa, hipa, ipb, hipb, ha, hb,
        ⟨pa, pb, a, b, hpa, hpb, hsrc, hdst, hcc⟩, hroweq⟩
    obtain ⟨ipa1, ipa2⟩ := ipa
    obtain ⟨ipb1, ipb2⟩ := ipb
    dsimp at ha hb hpa hpb hroweq
    subst hroweq
    dsimp at hpi hpj
    subst hpi
    subst hpj
    subst ha
    subst hb
    exact ⟨r, hr, pa, pb, a, b, hipa, hipb, hpa, hpb, hsrc, hdst, hcc⟩
  · rintro ⟨r, hr, pa, pb, a, b, hipa, hipb, hpa, hpb, hsrc, hdst, hcc⟩
    refine ⟨⟨i, j, r.mandatorily⟩, ?_, rfl, rfl⟩
    rw [mem_create_depends_on_rows]
    exact ⟨r, hr, (r.src, i), hipa, (r.dst, j), hipb, rfl, rfl,
      ⟨pa, pb, a, b, hpa, hpb, hsrc, hdst, hcc⟩, rfl⟩

/-- C3: every DEPENDS_ON relationship the collapse query creates, on any
graph state and any ignored-item list, joins two existing distinct pack
nodes with distinct ids, neither id in the ignore-list, sharing at least
one marketplace: never a self-edge, never an ignored pack, never
disjoint marketplace sets. -/
theorem c3_collapse_invariants (g : DepGraph) (ig : List String) :
    ∀ e ∈ create_depends_on_relationships g ig,
      e.src ≠ e.dst ∧ ∃ pa pb, g.nodes[e.src]? = some pa ∧
        g.nodes[e.dst]? = some pb ∧ pa.id ≠ pb.id ∧
        pa.id ∉ IGNORED_PACKS_IN_DEPENDENCY_CALC ∧
        pb.id ∉ IGNORED_PACKS_IN_DEPENDENCY_CALC ∧
        ∃ mp, mp ∈ pa.marketplaces ∧ mp ∈ pb.marketplaces := by
  intro e he
  have hpair := (c1_collapse_iff g ig e.src e.dst).mp ⟨e, he, rfl, rfl⟩
  rcases hpair with ⟨r, _, pa, pb, a, b, _, _, hpa, hpb, _, _, hcc⟩
  unfold collapseCond at hcc
  rw [Bool.and_eq_true, Bool.and_eq_true, Bool.and_eq_true,
    Bool.and_eq_true] at hcc
  rcases hcc with ⟨⟨⟨⟨hshare, hne⟩, hia⟩, hib⟩, _⟩
  rw [bne_iff_ne] at hne
  have hmp : ∃ mp, mp ∈ pa.marketplaces ∧ mp ∈ pb.marketplaces := by
    unfold sharesMarketplace at hshare
    rcases List.any_eq_true.mp hshare with ⟨mp, hmpa, hmpb⟩
    exact ⟨mp, hmpa, (contains_iff_mem_str _ _).mp hmpb⟩
  have hsd : e.src ≠ e.dst := by
    intro hsame
    rw [hsame, hpb, Option.some.injEq] at hpa
    exact hne (by rw [hpa])
  refine ⟨hsd, pa, pb, hpa, hpb, hne, ?_, ?_, hmp⟩
  · intro hmem
    rw [← contains_iff_mem_str] at hmem
    rw [hmem] at hia
    cases hia
  · intro hmem
    rw [← contains_iff_mem_str] at hmem
    rw [hmem] at hib
    cases hib

/-- C3 witness: the invariants at the concrete DEPENDS_ON relationship
the collapse query creates on the non-mandatory example graph. -/
theorem c3_witness :
    (⟨0, 1, ["m"], false⟩ : DependsOnEdge).src ≠
        (⟨0, 1, ["m"], false⟩ : DependsOnEdge).dst ∧
      ∃ pa pb,
        gMandFalse.nodes[(⟨0, 1, ["m"], false⟩ : DependsOnEdge).src]? =
            some pa ∧
          gMandFalse.nodes[(⟨0, 1, ["m"], false⟩ : DependsOnEdge).dst]? =
            some pb ∧
          pa.id ≠ pb.id ∧
          pa.id ∉ IGNORED_PACKS_IN_DEPENDENCY_CALC ∧
          pb.id ∉ IGNORED_PACKS_IN_DEPENDENCY_CALC ∧
          ∃ mp, mp ∈ pa.marketplaces ∧ mp ∈ pb.marketplaces :=
  c3_collapse_invariants gMandFalse [] ⟨0, 1, ["m"], false⟩ (by decide)

end DemistoSdk
